import Mathlib

/-!
Verification development for the battery_monitor firmware
(src/src/sensor/main_voltage.c, src/src/bluetooth/service.c,
src/src/hardware/mux.c).

The C code is shallowly embedded: machine integers are modelled as `Nat`
with explicit `% 2 ^ 32` / `% 2 ^ 16` wraps where the C types wrap,
`size_t` subtraction is modelled with an explicit wrap at `2 ^ 64`,
fallible external calls (`adc_read`, `nvs_read`, `nvs_write`,
`bt_nus_send`, `bt_gatt_notify`) are oracles passed in as parameters,
and the byte writes of `snprintf` are logged as `(position, character)`
pairs so that buffer-overflow behaviour is observable.
-/

set_option maxRecDepth 4000

/-! ## Constants (from main_voltage.c) -/

def NUMBER_OF_BATTERIES_IN_SERIES : Nat := 5
def NUMBER_OF_MUXES : Nat := 2
def NUMBER_OF_MUX_CHANNELS : Nat := 4
def TOTAL_CHANNELS : Nat := NUMBER_OF_MUXES * NUMBER_OF_MUX_CHANNELS
def MAX_SAMPLES : Nat := 128
def R1 : Nat := 240000
def R2 : Nat := 10000
def ADC_REF_CV : Nat := 330
def ADC_RESOLUTION : Nat := 1024
def UINT32_MOD : Nat := 2 ^ 32
def UINT16_MOD : Nat := 2 ^ 16

/-! ## Data model: adc_sample_t and the global sample buffer -/

/-- One `adc_sample_t` record: `int64_t timestamp` and
`uint16_t adc_values[TOTAL_CHANNELS]` (modelled as a `List Nat`,
length 8 in every reachable state). -/
structure AdcSample where
  timestamp : Int
  adc_values : List Nat
deriving DecidableEq

def defaultSample : AdcSample := ⟨0, List.replicate TOTAL_CHANNELS 0⟩

/-- The mutable module state of main_voltage.c:
`samples[MAX_SAMPLES]`, `sample_index` and the one-element
`adc_buffer` that `adc_read` fills. -/
structure ScanState where
  samples : List AdcSample
  sample_index : Nat
  adc_buffer : Nat
deriving DecidableEq

/-! ## convert_adc_to_scaled_voltage (main_voltage.c lines 85-90) -/

/-- `uint16_t convert_adc_to_scaled_voltage(uint32_t adc_value)`:
`uint32_t v_adc = ((uint32_t)adc_value * ADC_REF_CV) / ADC_RESOLUTION;`
`uint16_t v_in  = v_adc * (R1 + R2) / R2;`
The multiplications happen in `uint32_t` (wrap at `2 ^ 32`), the final
assignment truncates to `uint16_t` (wrap at `2 ^ 16`). -/
def convert_adc_to_scaled_voltage (adc_value : Nat) : Nat :=
  let v_adc := adc_value * ADC_REF_CV % UINT32_MOD / ADC_RESOLUTION
  let v_in := v_adc * (R1 + R2) % UINT32_MOD / R2 % UINT16_MOD
  v_in

/-- C9: for every raw ADC value in `[0, ADC_RESOLUTION - 1]`,
`convert_adc_to_scaled_voltage` computes exactly
`(raw * 330 / 1024) * (240000 + 10000) / 10000` with truncating integer
division, no intermediate overflows its `uint32_t` computation, and the
result fits the `uint16_t` return type. -/
theorem convert_exact (raw : Nat) (h : raw < ADC_RESOLUTION) :
    convert_adc_to_scaled_voltage raw
      = raw * ADC_REF_CV / ADC_RESOLUTION * (R1 + R2) / R2 ∧
    raw * ADC_REF_CV < UINT32_MOD ∧
    raw * ADC_REF_CV / ADC_RESOLUTION * (R1 + R2) < UINT32_MOD ∧
    convert_adc_to_scaled_voltage raw < UINT16_MOD := by
  simp only [ADC_RESOLUTION] at h
  have h330 : raw * 330 < 2 ^ 32 := by omega
  have hdiv : raw * 330 / 1024 ≤ 329 := by omega
  have hmul : raw * 330 / 1024 * (240000 + 10000) < 2 ^ 32 := by omega
  have hres : raw * 330 / 1024 * (240000 + 10000) / 10000 < 2 ^ 16 := by omega
  simp only [convert_adc_to_scaled_voltage, ADC_REF_CV, ADC_RESOLUTION, R1, R2,
    UINT32_MOD, UINT16_MOD]
  rw [Nat.mod_eq_of_lt h330, Nat.mod_eq_of_lt hmul, Nat.mod_eq_of_lt hres]
  exact ⟨rfl, h330, hmul, hres⟩

/-- Witness for `convert_exact` at the largest 10-bit raw value 1023
(the result there is 329 cV * 25 = 8225). -/
theorem convert_exact_witness :
    convert_adc_to_scaled_voltage 1023
      = 1023 * ADC_REF_CV / ADC_RESOLUTION * (R1 + R2) / R2 ∧
    1023 * ADC_REF_CV < UINT32_MOD ∧
    1023 * ADC_REF_CV / ADC_RESOLUTION * (R1 + R2) < UINT32_MOD ∧
    convert_adc_to_scaled_voltage 1023 < UINT16_MOD :=
  convert_exact 1023 (by decide)

/-! ## store_sample (main_voltage.c lines 336-355)

`store_sample` performs one `adc_read` whose error code gates the whole
scan, then for `mux` in `0..NUMBER_OF_MUXES-1` and `channel` in
`0..NUMBER_OF_MUX_CHANNELS-1` it performs (in this source order):
`adc_read` (result code discarded), `set_mux_channel(mux, channel)`,
`k_sleep(K_USEC(50))`, and the store of
`convert_adc_to_scaled_voltage(adc_buffer[0])` into
`adc_values[mux * NUMBER_OF_MUX_CHANNELS + channel]`.

The embedding gives every `adc_read` call a sequence number (0 for the
gating read, `1 + slot` for the read of loop iteration `slot`) and takes
the read outcomes from an oracle `reads : Nat → Option Nat`: `some v`
means the read succeeded and stored `v` into `adc_buffer[0]`, `none`
means it failed and `adc_buffer` kept its previous value.  Observable
actions (ADC reads, multiplexer selection, settling delay, value
stores, `bt_nus_send` calls) are logged as a trace. -/

inductive ScanEvent where
  | adcReadE (call : Nat)
  | muxSelE (mux channel : Nat)
  | settleE
  | storeE (slot : Nat)
  | btSendE
deriving DecidableEq

/-- Result of one buffer operation: the new module state, the trace of
observable actions, and the list of `samples`-array indices the
operation read or wrote. -/
structure ScanResult where
  st : ScanState
  trace : List ScanEvent
  accessed : List Nat
deriving DecidableEq

/-- The `(mux, channel)` iteration space of the nested scan loops, in
source order: bank-major, index-minor. -/
def muxChannelPairs : List (Nat × Nat) :=
  ((List.range NUMBER_OF_MUXES).map
    (fun m => (List.range NUMBER_OF_MUX_CHANNELS).map (fun c => (m, c)))).flatten

/-- One iteration of the `store_sample` scan loop (read first, then
select, then settle, then store — the order of main_voltage.c lines
345-350). The accumulator carries `adc_buffer`, the `adc_values` array
being filled in place, and the trace so far. -/
def scanIterStoreSample (reads : Nat → Option Nat)
    (acc : Nat × List Nat × List ScanEvent) (mc : Nat × Nat) :
    Nat × List Nat × List ScanEvent :=
  let slot := mc.1 * NUMBER_OF_MUX_CHANNELS + mc.2
  let buf := match reads (1 + slot) with
    | some v => v
    | none => acc.1
  (buf, acc.2.1.set slot (convert_adc_to_scaled_voltage buf),
    acc.2.2 ++ [ScanEvent.adcReadE (1 + slot), ScanEvent.muxSelE mc.1 mc.2,
      ScanEvent.settleE, ScanEvent.storeE slot])

/-- `void store_sample(void)` (main_voltage.c lines 336-355). -/
def store_sample (st : ScanState) (ts : Int) (reads : Nat → Option Nat) :
    ScanResult :=
  let buf0 := match reads 0 with
    | some v => v
    | none => st.adc_buffer
  if st.sample_index < MAX_SAMPLES ∧ (reads 0).isSome = true then
    let init := (buf0, (st.samples.getD st.sample_index defaultSample).adc_values,
      ([] : List ScanEvent))
    let res := muxChannelPairs.foldl (scanIterStoreSample reads) init
    { st := { samples := st.samples.set st.sample_index ⟨ts, res.2.1⟩,
              sample_index := st.sample_index + 1,
              adc_buffer := res.1 },
      trace := ScanEvent.adcReadE 0 :: res.2.2,
      accessed := [st.sample_index] }
  else
    { st := { st with adc_buffer := buf0 },
      trace := [ScanEvent.adcReadE 0],
      accessed := [] }

/-- A concrete well-formed state: empty buffer, 128 zeroed records. -/
def cexScanState : ScanState := ⟨List.replicate MAX_SAMPLES defaultSample, 0, 7⟩

/-- A read oracle where every `adc_read` succeeds and call `k` yields the
raw value `k * 100` (all nine conversions are distinct). -/
def cexReads : Nat → Option Nat := fun k => some (k * 100)

/-- A read oracle where the gating read and all loop reads succeed except
read 3, the per-channel read of loop iteration `slot = 2` (mux 0,
channel 2). -/
def innerFailReads : Nat → Option Nat := fun k => if k = 3 then none else some (k * 100)

/-- Counterexample to C2: during the scan cycle the raw ADC read number 3
(the per-channel read of mux 0, channel 2) fails, yet `store_sample`
still appends a record — `sample_index` goes from 0 to 1.  Only the
initial `adc_read` (call 0) is error-checked in the source; the loop
reads' return codes are discarded, so a failed per-channel read does not
abort the cycle as the claim states. -/
theorem store_sample_inner_fail_cex :
    innerFailReads 3 = none ∧
    (store_sample cexScanState 0 innerFailReads).st.sample_index
      = cexScanState.sample_index + 1 := by
  constructor
  · rfl
  · rfl

/-- C2 (amended): only the initial raw ADC read gates the scan.  If it
succeeds and the buffer is not full, the record is appended
(`sample_index` increments) no matter whether the per-channel loop reads
fail; if the initial read fails, the cycle aborts with the module state
completely unchanged, no store, and no `samples` access. -/
theorem store_sample_initial_read_gate (st : ScanState) (ts : Int)
    (reads : Nat → Option Nat) (v : Nat)
    (h0 : reads 0 = some v) (hidx : st.sample_index < MAX_SAMPLES) :
    (store_sample st ts reads).st.sample_index = st.sample_index + 1 ∧
    ∀ (ts2 : Int) (reads2 : Nat → Option Nat), reads2 0 = none →
      store_sample st ts2 reads2 = ⟨st, [ScanEvent.adcReadE 0], []⟩ := by
  constructor
  · simp [store_sample, h0, hidx]
  · intro ts2 reads2 h2
    obtain ⟨s, i, b⟩ := st
    simp [store_sample, h2]

/-- Witness for `store_sample_initial_read_gate` on the concrete empty
buffer state with the all-successful read oracle. -/
theorem store_sample_initial_read_gate_witness :
    (store_sample cexScanState 0 cexReads).st.sample_index
      = cexScanState.sample_index + 1 ∧
    ∀ (ts2 : Int) (reads2 : Nat → Option Nat), reads2 0 = none →
      store_sample cexScanState ts2 reads2 = ⟨cexScanState, [ScanEvent.adcReadE 0], []⟩ :=
  store_sample_initial_read_gate cexScanState 0 cexReads 0 rfl (by decide)

/-- A concrete full-buffer state (`sample_index = MAX_SAMPLES`). -/
def fullScanState : ScanState := ⟨List.replicate MAX_SAMPLES defaultSample, MAX_SAMPLES, 0⟩

/-- Counterexample to C3: on a full buffer (with a successful scan
available from `cexReads`), `store_sample` leaves `sample_index` at 128
as the claim requires, but its whole observable behaviour is the single
gating `adc_read` — it emits no Bluetooth send and no event of any kind
that could report a BufferFull condition.  The only error-reporting
channel this module ever uses is `bt_nus_send` / `bt_gatt_notify`, and
none is invoked: the rejection is silent, not observable. -/
theorem store_sample_full_silent_cex :
    (store_sample fullScanState 0 cexReads).st.sample_index = MAX_SAMPLES ∧
    (store_sample fullScanState 0 cexReads).trace = [ScanEvent.adcReadE 0] ∧
    ¬ ∃ e ∈ (store_sample fullScanState 0 cexReads).trace, e = ScanEvent.btSendE := by
  refine ⟨rfl, rfl, ?_⟩
  decide

/-- C3 (amended): whenever the buffer is full, an append attempt through
`store_sample` never changes `sample_index` nor any stored record, but
the rejection is silent: the function performs only the gating
`adc_read`, reports nothing (no Bluetooth send), and touches no
`samples` slot. -/
theorem store_sample_full_rejects_silently (st : ScanState) (ts : Int)
    (reads : Nat → Option Nat) (h : st.sample_index = MAX_SAMPLES) :
    (store_sample st ts reads).st.samples = st.samples ∧
    (store_sample st ts reads).st.sample_index = st.sample_index ∧
    (store_sample st ts reads).trace = [ScanEvent.adcReadE 0] ∧
    (store_sample st ts reads).accessed = [] := by
  have hlt : ¬ st.sample_index < MAX_SAMPLES := by omega
  simp [store_sample, hlt]

/-- Witness for `store_sample_full_rejects_silently` on the concrete full
state. -/
theorem store_sample_full_rejects_silently_witness :
    (store_sample fullScanState 0 innerFailReads).st.samples = fullScanState.samples ∧
    (store_sample fullScanState 0 innerFailReads).st.sample_index
      = fullScanState.sample_index ∧
    (store_sample fullScanState 0 innerFailReads).trace = [ScanEvent.adcReadE 0] ∧
    (store_sample fullScanState 0 innerFailReads).accessed = [] :=
  store_sample_full_rejects_silently fullScanState 0 innerFailReads rfl

/-! ## C6: per-channel ordering of select / settle / read in store_sample -/

/-- The ordering C6 claims for channel `(m, c)` with `slot = m * 4 + c`:
somewhere in the trace, selection of the channel is followed (later) by a
settling delay, which is followed (later) by ADC read number `1 + slot`
— the read whose value ends up stored at `adc_values[slot]` when all
reads succeed. -/
def selectSettleReadOrder (t : List ScanEvent) (m c slot : Nat) : Prop :=
  ∃ i < t.length, ∃ j < t.length, ∃ k < t.length,
    i < j ∧ j < k ∧
    t[i]? = some (ScanEvent.muxSelE m c) ∧
    t[j]? = some ScanEvent.settleE ∧
    t[k]? = some (ScanEvent.adcReadE (1 + slot))

/-- Counterexample to C6: with every read succeeding (`cexReads`, read
`k` yields raw value `k * 100`), the value stored at
`channel_values[0]` (mux 0, channel 0) is the conversion of read
number 1 — but nowhere in the trace does `set_mux_channel(0, 0)`
followed by the settling delay precede read number 1: `store_sample`
issues that read *before* selecting the channel (main_voltage.c line 345
precedes line 346), so the claimed select → settle → read order is
violated for the stored sample. -/
theorem store_sample_read_order_cex :
    cexReads 1 = some 100 ∧
    ((store_sample cexScanState 0 cexReads).st.samples.getD 0 defaultSample).adc_values.getD 0 0
      = convert_adc_to_scaled_voltage 100 ∧
    ¬ selectSettleReadOrder (store_sample cexScanState 0 cexReads).trace 0 0 0 := by
  refine ⟨rfl, rfl, ?_⟩
  unfold selectSettleReadOrder
  decide

/-- C6 (amended): in every successful `store_sample` scan cycle the
per-channel event order is read, then select, then settle, then store:
the trace is exactly `adc_read` number 0 followed, for each `slot =
mux * 4 + channel` in bank-major index-minor order, by `adc_read`
number `1 + slot`, `set_mux_channel(mux, channel)`, the 50 us settling
delay, and the store into `adc_values[slot]`; the value stored at
`slot` is the conversion of read `1 + slot`, issued *before* that
channel was selected.  Storage order still equals the bank-major scan
order. -/
theorem store_sample_read_before_select (st : ScanState) (ts : Int)
    (reads : Nat → Option Nat) (f : Nat → Nat)
    (hr : ∀ k, reads k = some (f k)) (hidx : st.sample_index < MAX_SAMPLES)
    (hsz : st.sample_index < st.samples.length)
    (hlen : (st.samples.getD st.sample_index defaultSample).adc_values.length = TOTAL_CHANNELS) :
    (store_sample st ts reads).trace =
      [ScanEvent.adcReadE 0,
       ScanEvent.adcReadE 1, ScanEvent.muxSelE 0 0, ScanEvent.settleE, ScanEvent.storeE 0,
       ScanEvent.adcReadE 2, ScanEvent.muxSelE 0 1, ScanEvent.settleE, ScanEvent.storeE 1,
       ScanEvent.adcReadE 3, ScanEvent.muxSelE 0 2, ScanEvent.settleE, ScanEvent.storeE 2,
       ScanEvent.adcReadE 4, ScanEvent.muxSelE 0 3, ScanEvent.settleE, ScanEvent.storeE 3,
       ScanEvent.adcReadE 5, ScanEvent.muxSelE 1 0, ScanEvent.settleE, ScanEvent.storeE 4,
       ScanEvent.adcReadE 6, ScanEvent.muxSelE 1 1, ScanEvent.settleE, ScanEvent.storeE 5,
       ScanEvent.adcReadE 7, ScanEvent.muxSelE 1 2, ScanEvent.settleE, ScanEvent.storeE 6,
       ScanEvent.adcReadE 8, ScanEvent.muxSelE 1 3, ScanEvent.settleE, ScanEvent.storeE 7] ∧
    ∀ slot < TOTAL_CHANNELS,
      ((store_sample st ts reads).st.samples.getD st.sample_index defaultSample).adc_values.getD slot 0
        = convert_adc_to_scaled_voltage (f (1 + slot)) := by
  have hre : reads = fun k => some (f k) := funext hr
  subst hre
  have hpairs : muxChannelPairs
      = [(0,0),(0,1),(0,2),(0,3),(1,0),(1,1),(1,2),(1,3)] := by decide
  have hlen8 : (st.samples.getD st.sample_index defaultSample).adc_values.length = 8 := by
    simpa [TOTAL_CHANNELS, NUMBER_OF_MUXES, NUMBER_OF_MUX_CHANNELS] using hlen
  simp only [store_sample, hpairs, scanIterStoreSample, List.foldl_cons, List.foldl_nil,
    NUMBER_OF_MUX_CHANNELS]
  rw [if_pos (show st.sample_index < MAX_SAMPLES ∧ ((some (f 0)).isSome = true)
    from ⟨hidx, rfl⟩)]
  constructor
  · norm_num
  · intro slot hslot
    have hslot8 : slot < 8 := by
      simpa [TOTAL_CHANNELS, NUMBER_OF_MUXES, NUMBER_OF_MUX_CHANNELS] using hslot
    simp only [List.getD_eq_getElem?_getD] at hlen8 ⊢
    rw [List.getElem?_set_self hsz]
    simp only [Option.getD_some]
    interval_cases slot <;>
      simp [List.getElem?_set, List.length_set, hlen8]

/-- Witness for `store_sample_read_before_select` on the concrete empty
buffer state with the all-successful oracle `cexReads`. -/
theorem store_sample_read_before_select_witness :
    (store_sample cexScanState 0 cexReads).trace =
      [ScanEvent.adcReadE 0,
       ScanEvent.adcReadE 1, ScanEvent.muxSelE 0 0, ScanEvent.settleE, ScanEvent.storeE 0,
       ScanEvent.adcReadE 2, ScanEvent.muxSelE 0 1, ScanEvent.settleE, ScanEvent.storeE 1,
       ScanEvent.adcReadE 3, ScanEvent.muxSelE 0 2, ScanEvent.settleE, ScanEvent.storeE 2,
       ScanEvent.adcReadE 4, ScanEvent.muxSelE 0 3, ScanEvent.settleE, ScanEvent.storeE 3,
       ScanEvent.adcReadE 5, ScanEvent.muxSelE 1 0, ScanEvent.settleE, ScanEvent.storeE 4,
       ScanEvent.adcReadE 6, ScanEvent.muxSelE 1 1, ScanEvent.settleE, ScanEvent.storeE 5,
       ScanEvent.adcReadE 7, ScanEvent.muxSelE 1 2, ScanEvent.settleE, ScanEvent.storeE 6,
       ScanEvent.adcReadE 8, ScanEvent.muxSelE 1 3, ScanEvent.settleE, ScanEvent.storeE 7] ∧
    ∀ slot < TOTAL_CHANNELS,
      ((store_sample cexScanState 0 cexReads).st.samples.getD cexScanState.sample_index
          defaultSample).adc_values.getD slot 0
        = convert_adc_to_scaled_voltage ((1 + slot) * 100) :=
  store_sample_read_before_select cexScanState 0 cexReads (fun k => k * 100)
    (fun _ => rfl) (by decide) (by decide) (by decide)

/-! ## store_sample_nvs (main_voltage.c lines 357-392) and the NVS store

The NVS key-value log is modelled as a partial map `Nat → Option
AdcSample`: `nvs_write(&fs, key, rec, …)` with a non-negative return
code makes the map yield `some rec` at `key`; `nvs_read(&fs, key, …)`
returns `some rec` (a positive byte count in C) or `none` (`rc <= 0`,
no more samples). -/

/-- Result of `store_sample_nvs`: new module state, new NVS contents,
trace and accessed `samples` indices. -/
structure NvsResult where
  st : ScanState
  nvs : Nat → Option AdcSample
  trace : List ScanEvent
  accessed : List Nat

/-- One iteration of the `store_sample_nvs` scan loop — unlike
`store_sample`, this variant selects the channel and waits the settling
delay *before* the `adc_read` (main_voltage.c lines 367-372). -/
def scanIterStoreSampleNvs (reads : Nat → Option Nat)
    (acc : Nat × List Nat × List ScanEvent) (mc : Nat × Nat) :
    Nat × List Nat × List ScanEvent :=
  let slot := mc.1 * NUMBER_OF_MUX_CHANNELS + mc.2
  let buf := match reads (1 + slot) with
    | some v => v
    | none => acc.1
  (buf, acc.2.1.set slot (convert_adc_to_scaled_voltage buf),
    acc.2.2 ++ [ScanEvent.muxSelE mc.1 mc.2, ScanEvent.settleE,
      ScanEvent.adcReadE (1 + slot), ScanEvent.storeE slot])

/-- `void store_sample_nvs(void)` (main_voltage.c lines 357-392).
`write_ok` is the outcome of the `nvs_write` call (`rc >= 0`); the
record is written into `samples[sample_index]` in place during the loop
either way, but `sample_index` is incremented only on a successful NVS
write.  Each branch performs one debug `bt_nus_send` plus the
unconditional final one. -/
def store_sample_nvs (st : ScanState) (ts : Int) (reads : Nat → Option Nat)
    (nvs : Nat → Option AdcSample) (write_ok : Bool) : NvsResult :=
  let buf0 := match reads 0 with
    | some v => v
    | none => st.adc_buffer
  if st.sample_index < MAX_SAMPLES ∧ (reads 0).isSome = true then
    let init := (buf0, (st.samples.getD st.sample_index defaultSample).adc_values,
      ([] : List ScanEvent))
    let res := muxChannelPairs.foldl (scanIterStoreSampleNvs reads) init
    let rec2 : AdcSample := ⟨ts, res.2.1⟩
    let samples2 := st.samples.set st.sample_index rec2
    if write_ok then
      { st := { samples := samples2, sample_index := st.sample_index + 1,
                adc_buffer := res.1 },
        nvs := fun k => if k = st.sample_index then some rec2 else nvs k,
        trace := (ScanEvent.adcReadE 0 :: res.2.2) ++ [ScanEvent.btSendE, ScanEvent.btSendE],
        accessed := [st.sample_index] }
    else
      { st := { samples := samples2, sample_index := st.sample_index,
                adc_buffer := res.1 },
        nvs := nvs,
        trace := (ScanEvent.adcReadE 0 :: res.2.2) ++ [ScanEvent.btSendE, ScanEvent.btSendE],
        accessed := [st.sample_index] }
  else
    { st := { st with adc_buffer := buf0 },
      nvs := nvs,
      trace := [ScanEvent.adcReadE 0, ScanEvent.btSendE],
      accessed := [] }

/-! ## load_samples_from_nvs (main_voltage.c lines 409-418) -/

/-- Result of `load_samples_from_nvs`. -/
structure LoadResult where
  st : ScanState
  accessed : List Nat
deriving DecidableEq

/-- The recovery loop: starting at index `i` with `fuel = MAX_SAMPLES - i`
iterations left (the `sample_index < MAX_SAMPLES` loop guard), read key
`i`; stop on a miss, otherwise write the record into `samples[i]` and
continue at `i + 1`. -/
def loadAux (nvs : Nat → Option AdcSample) :
    List AdcSample → Nat → Nat → List AdcSample × Nat × List Nat
  | samples, i, 0 => (samples, i, [])
  | samples, i, fuel + 1 =>
    match nvs i with
    | none => (samples, i, [])
    | some r =>
      let rest := loadAux nvs (samples.set i r) (i + 1) fuel
      (rest.1, rest.2.1, i :: rest.2.2)

/-- `void load_samples_from_nvs(void)` (main_voltage.c lines 409-418):
resets `sample_index` to 0, then reads keys 0, 1, 2, … into
`samples[0..]` until a read misses or `MAX_SAMPLES` is reached. -/
def load_samples_from_nvs (st : ScanState) (nvs : Nat → Option AdcSample) :
    LoadResult :=
  let r := loadAux nvs st.samples 0 MAX_SAMPLES
  ⟨{ st with samples := r.1, sample_index := r.2.1 }, r.2.2⟩

/-- Splice `recs` into `samples` starting at position `i` (the effect of
the recovery loop's in-place writes). -/
def listOverwrite (samples : List AdcSample) (i : Nat) (recs : List AdcSample) :
    List AdcSample :=
  samples.take i ++ recs ++ samples.drop (i + recs.length)

theorem loadAux_spec (nvs : Nat → Option AdcSample) :
    ∀ (recs : List AdcSample) (samples : List AdcSample) (i fuel : Nat),
      recs.length ≤ fuel → i + recs.length ≤ samples.length →
      (∀ j, nvs (i + j) = recs[j]?) →
      loadAux nvs samples i fuel
        = (listOverwrite samples i recs, i + recs.length, List.range' i recs.length) := by
  intro recs
  induction recs with
  | nil =>
    intro samples i fuel hf hs hv
    have h0 : nvs i = none := by simpa using hv 0
    cases fuel with
    | zero => simp [loadAux, listOverwrite]
    | succ fuel => simp [loadAux, h0, listOverwrite]
  | cons r rs ih =>
    intro samples i fuel hf hs hv
    cases fuel with
    | zero => simp at hf
    | succ fuel =>
      have h0 : nvs i = some r := by simpa using hv 0
      have hi : i < samples.length := by
        simp only [List.length_cons] at hs; omega
      have hrec := ih (samples.set i r) (i + 1) fuel
        (by simp only [List.length_cons] at hf; omega)
        (by simp only [List.length_set]; simp only [List.length_cons] at hs; omega)
        (fun j => by
          have h := hv (j + 1)
          rw [show i + 1 + j = i + (j + 1) by omega]
          simpa using h)
      simp only [loadAux, h0]
      rw [hrec]
      have htake : (samples.set i r).take (i + 1) = samples.take i ++ [r] := by
        rw [List.set_take, List.take_succ, List.getElem?_eq_getElem hi]
        rw [List.set_append_right _ _ (by simp [List.length_take])]
        simp [List.length_take_of_le (Nat.le_of_lt hi)]
      have hdrop : (samples.set i r).drop (i + 1 + rs.length)
          = samples.drop (i + 1 + rs.length) := by
        rw [List.drop_set, if_pos (by omega)]
      simp only [listOverwrite, htake, hdrop, List.length_cons, Prod.mk.injEq]
      refine ⟨?_, by omega, ?_⟩
      · rw [show i + (rs.length + 1) = i + 1 + rs.length by omega]
        simp [List.append_assoc]
      · rw [List.range'_succ]

/-- C8: if the NVS log holds exactly the records `recs` in slots
`0 .. recs.length - 1` (slot key = buffer position at capture time, the
key `store_sample_nvs` writes) and slot `recs.length` reads as not
found, then `load_samples_from_nvs` reconstructs the buffer: it stops at
the first read miss (or at the `MAX_SAMPLES` bound), leaves
`sample_index = recs.length`, the first `recs.length` buffer entries
equal to the originals in slot order, and accesses exactly the slots
`0 .. recs.length - 1`. -/
theorem load_recovers (st : ScanState) (recs : List AdcSample)
    (nvs : Nat → Option AdcSample)
    (hlen : recs.length ≤ MAX_SAMPLES) (hsz : MAX_SAMPLES ≤ st.samples.length)
    (hnvs : ∀ j, nvs j = recs[j]?) :
    (load_samples_from_nvs st nvs).st.sample_index = recs.length ∧
    (load_samples_from_nvs st nvs).st.samples.take recs.length = recs ∧
    (load_samples_from_nvs st nvs).accessed = List.range' 0 recs.length := by
  have h := loadAux_spec nvs recs st.samples 0 MAX_SAMPLES hlen (by omega)
    (fun j => by simpa using hnvs j)
  simp only [load_samples_from_nvs, h]
  refine ⟨by simp, ?_, by trivial⟩
  simp only [listOverwrite, List.take_zero, List.nil_append, Nat.zero_add]
  exact List.take_left' rfl

/-- The record used in concrete recovery witnesses. -/
def cexRecord : AdcSample := ⟨5, [1, 2, 3, 4, 5, 6, 7, 8]⟩

/-- An NVS log holding exactly one record, in slot 0. -/
def cexNvs : Nat → Option AdcSample := fun j => [cexRecord][j]?

/-- Witness for `load_recovers`: recovering from a log with one stored
record rebuilds a buffer of exactly that record. -/
theorem load_recovers_witness :
    (load_samples_from_nvs cexScanState cexNvs).st.sample_index = 1 ∧
    (load_samples_from_nvs cexScanState cexNvs).st.samples.take 1 = [cexRecord] ∧
    (load_samples_from_nvs cexScanState cexNvs).accessed = List.range' 0 1 :=
  load_recovers cexScanState [cexRecord] cexNvs (by decide) (by decide) (fun _ => rfl)

/-! ## format_csv (main_voltage.c lines 228-280)

The output buffer is byte-addressed memory; `format_csv` is embedded so
that every byte write `buffer[p] = c` is logged as a pair `(p, c)`, in
chronological order.  `snprintf(buffer + pos, size, …)` with the
rendered text `s` writes `min (s.length) (size - 1)` characters at
`pos, pos+1, …` followed by one NUL terminator (nothing at all if
`size = 0`) and returns the full untruncated length `s.length` — the
value the C code adds to `offset`.  The `size` argument is the C
expression `buf_size - offset` evaluated in `size_t`, i.e. wrapping at
`2 ^ 64`. -/

/-- The C string terminator. -/
def cNul : Char := Char.ofNat 0

/-- The byte writes that store the string `s` at positions
`pos, pos + 1, …`. -/
def strWrites : Nat → List Char → List (Nat × Char)
  | _, [] => []
  | pos, c :: cs => (pos, c) :: strWrites (pos + 1) cs

/-- Truncate `s` to at most `n` characters (kept as `s` when it already
fits, so that huge `size_t` bounds need not be recursed over). -/
def truncStr (n : Nat) (s : List Char) : List Char :=
  if s.length ≤ n then s else s.take n

/-- `size_t` subtraction `a - b`, wrapping at `2 ^ 64`. -/
def sub64 (a b : Nat) : Nat := (a + 2 ^ 64 - b) % 2 ^ 64

/-- The byte writes and the return value of one
`snprintf(buffer + pos, size, …)` call whose full rendered text is `s`. -/
def snprintfW (pos size : Nat) (s : List Char) : List (Nat × Char) × Nat :=
  if size = 0 then ([], s.length)
  else (strWrites pos (truncStr (size - 1) s) ++ [(pos + min s.length (size - 1), cNul)],
    s.length)

/-- Decimal rendering of a `%d` / `%lld` argument. -/
def natStr (n : Nat) : List Char := (toString n).data

/-- Decimal rendering of the `%lld` timestamp. -/
def intStr (i : Int) : List Char := (toString i).data

/-- One header label `",B%d"` (main_voltage.c line 238). -/
def labelStr (i : Nat) : List Char := ',' :: 'B' :: natStr i

/-- One data field `",%d"` (main_voltage.c line 259). -/
def valueStr (v : Nat) : List Char := ',' :: natStr v

/-- The texts written by the header phase (lines 236-240): `"Timestamp"`,
then `",B%d"` for `i = 1 .. NUMBER_OF_BATTERIES_IN_SERIES`, then the
newline. -/
def headerFields : List (List Char) :=
  "Timestamp".data
    :: ((List.range NUMBER_OF_BATTERIES_IN_SERIES).map (fun i => labelStr (i + 1))
      ++ [['\n']])

/-- The texts written for one record's data row before its newline
(lines 249-267): the `%lld` timestamp, then `",%d"` for the first
`NUMBER_OF_BATTERIES_IN_SERIES` stored channel values. -/
def rowFields (r : AdcSample) : List (List Char) :=
  intStr r.timestamp
    :: (List.range NUMBER_OF_BATTERIES_IN_SERIES).map
      (fun i => valueStr (r.adc_values.getD i 0))

/-- The header phase (lines 236-240): a sequence of snprintf calls whose
return values are added to `offset` without any check.  Returns the
final offset and the writes. -/
def writeUnchecked (bufsz : Nat) : Nat → List (List Char) → Nat × List (Nat × Char)
  | off, [] => (off, [])
  | off, f :: fs =>
    let r := snprintfW off (sub64 bufsz off) f
    let rest := writeUnchecked bufsz (off + r.2) fs
    (rest.1, r.1 ++ rest.2)

/-- The checked field writes of one data row (lines 249-267): after each
snprintf, `written >= buf_size - offset` aborts with the truncation
error (the truncated bytes already written stay in the buffer);
otherwise `offset += written`. -/
def writeFields (bufsz : Nat) : Nat → List (List Char) → Option Nat × List (Nat × Char)
  | off, [] => (some off, [])
  | off, f :: fs =>
    let r := snprintfW off (sub64 bufsz off) f
    if r.2 ≥ sub64 bufsz off then (none, r.1)
    else
      let rest := writeFields bufsz (off + r.2) fs
      (rest.1, r.1 ++ rest.2)

/-- The data-row loop (lines 248-277).  Each row writes its fields, then
— only if `offset < buf_size - 1` — the newline at `offset` and a NUL at
`offset + 1`, continuing at `offset + 1` (`buffer[offset++] = '\n';
buffer[offset] = '\0';`).  Returns `none` on the truncation error,
together with all writes performed and the indices of the records
processed. -/
def writeRows (bufsz : Nat) :
    Nat → List (Nat × AdcSample) → Option Nat × List (Nat × Char) × List Nat
  | off, [] => (some off, [], [])
  | off, (j, r) :: rest =>
    let fr := writeFields bufsz off (rowFields r)
    match fr.1 with
    | none => (none, fr.2, [j])
    | some off2 =>
      if off2 < bufsz - 1 then
        let rr := writeRows bufsz (off2 + 1) rest
        (rr.1, fr.2 ++ [(off2, '\n'), (off2 + 1, cNul)] ++ rr.2.1, j :: rr.2.2)
      else (none, fr.2, [j])

/-- Result of `format_csv`: the returned error code, the chronological
byte writes, and the `samples` indices read. -/
structure CsvResult where
  ret : Int
  writes : List (Nat × Char)
  accessed : List Nat
deriving DecidableEq

/-- `int format_csv(char *buffer, size_t buf_size)` (lines 228-280),
for a non-NULL buffer.  Returns `-1` on `buf_size == 0`, `-2` on
truncation, `0` on success. -/
def format_csv (st : ScanState) (buf_size : Nat) : CsvResult :=
  if buf_size = 0 then ⟨-1, [], []⟩
  else
    let hw := writeUnchecked buf_size 0 headerFields
    if hw.1 ≥ buf_size then ⟨-2, hw.2, []⟩
    else
      let recs := (List.range st.sample_index).map
        (fun j => (j, st.samples.getD j defaultSample))
      let rw := writeRows buf_size hw.1 recs
      match rw.1 with
      | none => ⟨-2, hw.2 ++ rw.2.1, rw.2.2⟩
      | some _ => ⟨0, hw.2 ++ rw.2.1, rw.2.2⟩

/-- The header row text `"Timestamp,B1,B2,B3,B4,B5\n"`. -/
def headerStr : List Char := headerFields.flatten

/-- The full text of one data row, newline included. -/
def rowStr (r : AdcSample) : List Char := (rowFields r).flatten ++ ['\n']

/-- The complete CSV text `format_csv` renders for a state: the header
row followed by one row per stored record. -/
def csvString (st : ScanState) : List Char :=
  headerStr
    ++ ((List.range st.sample_index).map
      (fun j => rowStr (st.samples.getD j defaultSample))).flatten

/-- Replay a chronological write log over initial memory contents. -/
def applyWrites (ws : List (Nat × Char)) (mem : Nat → Char) : Nat → Char :=
  ws.foldl (fun m w => fun x => if x = w.1 then w.2 else m x) mem

/-- The first `n` bytes of memory after replaying a write log over
all-`'X'` initial contents (used to state concrete outputs). -/
def bufBytes (ws : List (Nat × Char)) (n : Nat) : List Char :=
  (List.range n).map (applyWrites ws (fun _ => 'X'))

/-- A write log spells the string `s`: replaying it over any memory
leaves `s` in bytes `0 .. s.length - 1`, a NUL terminator at byte
`s.length` (once anything has been written, i.e. `s ≠ []`), and every
other byte untouched. -/
def SpellsCore (ws : List (Nat × Char)) (s : List Char) : Prop :=
  ∀ (mem : Nat → Char) (x : Nat),
    applyWrites ws mem x =
      if x < s.length then s.getD x cNul
      else if x = s.length ∧ s ≠ [] then cNul
      else mem x

theorem spellsCore_nil : SpellsCore [] [] := by
  intro mem x
  simp [applyWrites]

theorem applyWrites_append (w1 w2 : List (Nat × Char)) (mem : Nat → Char) :
    applyWrites (w1 ++ w2) mem = applyWrites w2 (applyWrites w1 mem) := by
  simp [applyWrites, List.foldl_append]

theorem applyWrites_strWrites (s : List Char) :
    ∀ (p : Nat) (mem : Nat → Char) (x : Nat),
      applyWrites (strWrites p s) mem x
        = if p ≤ x ∧ x < p + s.length then s.getD (x - p) cNul else mem x := by
  induction s with
  | nil =>
    intro p mem x
    simp only [strWrites, applyWrites, List.foldl_nil, List.length_nil, Nat.add_zero]
    rw [if_neg (by omega)]
  | cons c cs ih =>
    intro p mem x
    rw [show strWrites p (c :: cs) = (p, c) :: strWrites (p + 1) cs from rfl]
    rw [show applyWrites ((p, c) :: strWrites (p + 1) cs) mem
        = applyWrites (strWrites (p + 1) cs) (fun y => if y = p then c else mem y) from rfl]
    rw [ih (p + 1) _ x]
    simp only [List.length_cons]
    by_cases h1 : p + 1 ≤ x ∧ x < p + 1 + cs.length
    · rw [if_pos h1, if_pos (by omega)]
      rw [show x - p = (x - (p + 1)) + 1 by omega, List.getD_cons_succ]
    · rw [if_neg h1]
      by_cases h2 : x = p
      · subst h2
        rw [if_pos rfl, if_pos (by omega), Nat.sub_self, List.getD_cons_zero]
      · rw [if_neg h2, if_neg (by omega)]

theorem spellsCore_extend {ws : List (Nat × Char)} {s : List Char}
    (h : SpellsCore ws s) (f : List Char) (hne : s ≠ [] ∨ f ≠ []) :
    SpellsCore (ws ++ (strWrites s.length f ++ [(s.length + f.length, cNul)]))
      (s ++ f) := by
  intro mem x
  rw [applyWrites_append, applyWrites_append]
  have hnul : applyWrites [(s.length + f.length, cNul)]
      (applyWrites (strWrites s.length f) (applyWrites ws mem)) x
      = if x = s.length + f.length then cNul
        else applyWrites (strWrites s.length f) (applyWrites ws mem) x := rfl
  rw [hnul]
  have hsf : s ++ f ≠ [] := by
    intro hc
    rw [List.append_eq_nil] at hc
    rcases hne with h1 | h1 <;> exact h1 (by tauto)
  by_cases hA : x = s.length + f.length
  · rw [if_pos hA, if_neg (by simp [List.length_append]; omega),
      if_pos ⟨by simp [List.length_append]; omega, hsf⟩]
  · rw [if_neg hA, applyWrites_strWrites, h mem x]
    by_cases hB : s.length ≤ x ∧ x < s.length + f.length
    · rw [if_pos hB, if_pos (by simp [List.length_append]; omega)]
      rw [List.getD_append_right _ _ _ _ hB.1]
    · rw [if_neg hB]
      by_cases hC : x < s.length
      · rw [if_pos hC, if_pos (by simp [List.length_append]; omega)]
        rw [List.getD_append _ _ _ _ hC]
      · have hx : s.length + f.length < x ∨ (x = s.length ∧ f.length = 0) := by omega
        rcases hx with hx | ⟨hx1, hx2⟩
        · rw [if_neg (by omega), if_neg (by simp [List.length_append]; omega),
            if_neg (by simp [List.length_append]; omega),
            if_neg (show ¬(x = (s ++ f).length ∧ s ++ f ≠ []) by
              simp only [List.length_append]; omega)]
        · exfalso
          omega

theorem sub64_eq {a b : Nat} (hba : b ≤ a) (ha : a < 2 ^ 64) : sub64 a b = a - b := by
  unfold sub64
  rw [show a + 2 ^ 64 - b = 2 ^ 64 + (a - b) by omega, Nat.add_mod_left,
    Nat.mod_eq_of_lt (by omega)]

theorem snprintfW_fits {pos size : Nat} {s : List Char} (h : s.length < size) :
    snprintfW pos size s = (strWrites pos s ++ [(pos + s.length, cNul)], s.length) := by
  unfold snprintfW truncStr
  rw [if_neg (by omega), if_pos (by omega), Nat.min_eq_left (by omega)]

theorem writeUnchecked_fits (bufsz : Nat) (hb : bufsz < 2 ^ 64) :
    ∀ (fields : List (List Char)) (s : List Char) (ws : List (Nat × Char)),
      SpellsCore ws s →
      (∀ fl ∈ fields, fl ≠ []) →
      s.length + fields.flatten.length < bufsz →
      (writeUnchecked bufsz s.length fields).1 = s.length + fields.flatten.length ∧
      SpellsCore (ws ++ (writeUnchecked bufsz s.length fields).2)
        (s ++ fields.flatten) := by
  intro fields
  induction fields with
  | nil =>
    intro s ws hS _ _
    simpa [writeUnchecked] using hS
  | cons f fs ih =>
    intro s ws hS hne hfit
    have hlens : (f :: fs).flatten.length = f.length + fs.flatten.length := by
      simp
    have hsl : s.length ≤ bufsz := by omega
    have hsize : sub64 bufsz s.length = bufsz - s.length := sub64_eq hsl hb
    have hflt : f.length < sub64 bufsz s.length := by
      rw [hsize]; omega
    have hsnp := @snprintfW_fits s.length (sub64 bufsz s.length) f hflt
    have hext := spellsCore_extend hS f (Or.inr (hne f (by simp)))
    have hrec := ih (s ++ f) (ws ++ (strWrites s.length f ++ [(s.length + f.length, cNul)]))
      hext (fun fl hfl => hne fl (by simp [hfl]))
      (by simp only [List.length_append]; omega)
    rw [show (s ++ f).length = s.length + f.length from List.length_append s f] at hrec
    refine ⟨?_, ?_⟩
    · simp only [writeUnchecked, hsnp]
      rw [hrec.1]
      simp only [List.flatten_cons, List.length_append]
      omega
    · simp only [writeUnchecked, hsnp]
      have h2 := hrec.2
      simp only [List.flatten_cons]
      simp only [List.append_assoc] at h2 ⊢
      exact h2

/-- The text of a record list as rendered by the data-row loop. -/
def rowsText (recs : List (Nat × AdcSample)) : List Char :=
  (recs.map (fun jr => rowStr jr.2)).flatten

theorem writeFields_fits (bufsz : Nat) (hb : bufsz < 2 ^ 64) :
    ∀ (fields : List (List Char)) (s : List Char) (ws : List (Nat × Char)),
      SpellsCore ws s →
      s ≠ [] →
      s.length + fields.flatten.length < bufsz →
      (writeFields bufsz s.length fields).1 = some (s.length + fields.flatten.length) ∧
      SpellsCore (ws ++ (writeFields bufsz s.length fields).2)
        (s ++ fields.flatten) := by
  intro fields
  induction fields with
  | nil =>
    intro s ws hS _ _
    simpa [writeFields] using hS
  | cons f fs ih =>
    intro s ws hS hne hfit
    have hlens : (f :: fs).flatten.length = f.length + fs.flatten.length := by
      simp
    have hsl : s.length ≤ bufsz := by omega
    have hsize : sub64 bufsz s.length = bufsz - s.length := sub64_eq hsl hb
    have hflt : f.length < sub64 bufsz s.length := by
      rw [hsize]; omega
    have hsnp := @snprintfW_fits s.length (sub64 bufsz s.length) f hflt
    have hext := spellsCore_extend hS f (Or.inl hne)
    have hrec := ih (s ++ f) (ws ++ (strWrites s.length f ++ [(s.length + f.length, cNul)]))
      hext (by simp [hne])
      (by simp only [List.length_append]; omega)
    rw [show (s ++ f).length = s.length + f.length from List.length_append s f] at hrec
    refine ⟨?_, ?_⟩
    · simp only [writeFields, hsnp]
      rw [if_neg (by rw [hsize]; omega)]
      rw [hrec.1]
      simp only [List.flatten_cons, List.length_append, Option.some.injEq]
      omega
    · simp only [writeFields, hsnp]
      rw [if_neg (by rw [hsize]; omega)]
      have h2 := hrec.2
      simp only [List.flatten_cons]
      simp only [List.append_assoc] at h2 ⊢
      exact h2

theorem writeRows_fits (bufsz : Nat) (hb : bufsz < 2 ^ 64) :
    ∀ (recs : List (Nat × AdcSample)) (s : List Char) (ws : List (Nat × Char)),
      SpellsCore ws s → s ≠ [] →
      s.length + (rowsText recs).length < bufsz →
      (writeRows bufsz s.length recs).1 = some (s.length + (rowsText recs).length) ∧
      SpellsCore (ws ++ (writeRows bufsz s.length recs).2.1) (s ++ rowsText recs) := by
  intro recs
  induction recs with
  | nil =>
    intro s ws hS _ _
    simpa [writeRows, rowsText] using hS
  | cons jr rest ih =>
    intro s ws hS hne hfit
    obtain ⟨j, r⟩ := jr
    have htot : (rowsText ((j, r) :: rest)).length
        = (rowFields r).flatten.length + 1 + (rowsText rest).length := by
      simp [rowsText, rowStr]
      omega
    rw [htot] at hfit
    have hfl := writeFields_fits bufsz hb (rowFields r) s ws hS hne (by omega)
    have hext := spellsCore_extend hfl.2 ['\n'] (Or.inr (by simp))
    have hlen2 : (s ++ (rowFields r).flatten).length
        = s.length + (rowFields r).flatten.length := List.length_append _ _
    rw [hlen2] at hext
    have hih := ih (s ++ (rowFields r).flatten ++ ['\n'])
      (ws ++ (writeFields bufsz s.length (rowFields r)).2
        ++ (strWrites (s.length + (rowFields r).flatten.length) ['\n']
          ++ [(s.length + (rowFields r).flatten.length + ['\n'].length, cNul)]))
      (by
        simp only [List.append_assoc] at hext ⊢
        exact hext)
      (by simp)
      (by simp only [List.length_append, List.length_cons, List.length_nil]; omega)
    simp only [List.length_append, List.length_cons, List.length_nil, Nat.zero_add] at hih
    have hsw : strWrites (s.length + (rowFields r).flatten.length) ['\n']
        = [(s.length + (rowFields r).flatten.length, '\n')] := rfl
    rw [hsw] at hih
    refine ⟨?_, ?_⟩
    · simp only [writeRows, hfl.1]
      rw [if_pos (by omega)]
      rw [hih.1, htot, Option.some.injEq]
      omega
    · simp only [writeRows, hfl.1]
      rw [if_pos (by omega)]
      have h2 := hih.2
      have hflat : rowsText ((j, r) :: rest)
          = (rowFields r).flatten ++ ['\n'] ++ rowsText rest := by
        simp [rowsText, rowStr]
      rw [hflat]
      simp only [List.append_assoc, List.cons_append, List.nil_append,
        List.singleton_append] at h2 ⊢
      exact h2

/-- C1 (amended): for every buffer state and an output buffer of
sufficient capacity (at least one byte more than the rendered text,
`buf_size` being a `size_t`), `format_csv` succeeds and its writes spell
exactly `csvString st`: one header row `"Timestamp,B1,…,B5"` with one
label per battery (`NUMBER_OF_BATTERIES_IN_SERIES = 5`, *not* one per
logical channel), then one row per stored record holding the record's
timestamp followed by the first 5 of its `TOTAL_CHANNELS = 8` stored
channel values, NUL-terminated, all other memory untouched. -/
theorem header_phase (bufsz : Nat) (hb : bufsz < 2 ^ 64)
    (hfit : headerStr.length < bufsz) :
    (writeUnchecked bufsz 0 headerFields).1 = headerStr.length ∧
    SpellsCore (writeUnchecked bufsz 0 headerFields).2 headerStr := by
  have hhne : ∀ fl ∈ headerFields, fl ≠ [] := by decide
  have hfit2 : ([] : List Char).length + headerFields.flatten.length < bufsz := by
    rw [show ([] : List Char).length + headerFields.flatten.length
        = headerStr.length from rfl]
    exact hfit
  have hhdr := writeUnchecked_fits bufsz hb headerFields [] [] spellsCore_nil hhne hfit2
  have h1 := hhdr.1
  have h2 := hhdr.2
  rw [List.length_nil, Nat.zero_add] at h1
  rw [List.nil_append, List.nil_append] at h2
  rw [show headerFields.flatten.length = headerStr.length from rfl] at h1
  rw [show headerFields.flatten = headerStr from rfl] at h2
  exact ⟨h1, h2⟩

theorem format_csv_writes_all (st : ScanState) (bufsz : Nat) (hb : bufsz < 2 ^ 64)
    (hcap : (csvString st).length < bufsz) :
    (format_csv st bufsz).ret = 0 ∧
    SpellsCore (format_csv st bufsz).writes (csvString st) := by
  set recs : List (Nat × AdcSample) :=
    (List.range st.sample_index).map (fun j => (j, st.samples.getD j defaultSample))
    with hrecs
  have hrt : rowsText recs
      = ((List.range st.sample_index).map
          (fun j => rowStr (st.samples.getD j defaultSample))).flatten := by
    simp [rowsText, hrecs, List.map_map, Function.comp_def]
  have hcsv : csvString st = headerStr ++ rowsText recs := by
    rw [csvString, hrt]
  have hlencsv : (csvString st).length = headerStr.length + (rowsText recs).length := by
    rw [hcsv, List.length_append]
  have hbz : ¬ bufsz = 0 := by omega
  have hhdr := header_phase bufsz hb (by omega)
  have hrows := writeRows_fits bufsz hb recs headerStr
    (writeUnchecked bufsz 0 headerFields).2 hhdr.2 (by decide)
    (by omega)
  simp only [format_csv]
  rw [if_neg hbz, hhdr.1, if_neg (by omega)]
  rw [hrows.1]
  exact ⟨rfl, by rw [hcsv]; exact hrows.2⟩

/-- A concrete buffer state with one stored record whose 8 channel
values are 1..8. -/
def csvCexState : ScanState :=
  ⟨⟨7, [1, 2, 3, 4, 5, 6, 7, 8]⟩ :: List.replicate 127 defaultSample, 1, 0⟩

/-- Witness for `format_csv_writes_all` on the one-record state with a
100-byte buffer. -/
theorem format_csv_writes_all_witness :
    (format_csv csvCexState 100).ret = 0 ∧
    SpellsCore (format_csv csvCexState 100).writes (csvString csvCexState) :=
  format_csv_writes_all csvCexState 100 (by decide) (by decide)

/-- Counterexample to C1: on a state holding one record with the 8
channel values 1..8, `format_csv` succeeds but renders
`"Timestamp,B1,B2,B3,B4,B5\n7,1,2,3,4,5\n"`: the header carries
`NUMBER_OF_BATTERIES_IN_SERIES = 5` labels and the data row only the
first 5 of the `TOTAL_CHANNELS = 8` stored values (6, 7, 8 are
dropped).  Under the claim, the header would have one label per logical
channel and the row all 8 values, so the two rows together would contain
`2 * TOTAL_CHANNELS = 16` commas; the actual output contains 10. -/
theorem format_csv_channels_cex :
    (format_csv csvCexState 100).ret = 0 ∧
    bufBytes (format_csv csvCexState 100).writes 38
      = "Timestamp,B1,B2,B3,B4,B5\n7,1,2,3,4,5\n".data ++ [cNul] ∧
    TOTAL_CHANNELS = 8 ∧
    "Timestamp,B1,B2,B3,B4,B5\n7,1,2,3,4,5\n".data.count ',' = 10 ∧
    (10 : Nat) ≠ 2 * TOTAL_CHANNELS := by
  refine ⟨rfl, by decide, rfl, by decide, by decide⟩

/-- C4 is a code bug: with `buf_size = 5` and an empty sample buffer,
the header loop adds snprintf's untruncated return value 9 to `offset`,
then calls `snprintf(buffer + 9, (size_t)(5 - 9), ",B1")`, whose size
argument wraps to `2 ^ 64 - 4`; the call writes `,B1` and a NUL at
bytes 9..12, past the 5-byte capacity.  `format_csv` does return the
truncation error `-2`, but only after having written out of bounds,
contradicting the claim that it never writes past the given capacity. -/
theorem format_csv_overflow_bug :
    (format_csv cexScanState 5).ret = -2 ∧
    (9, ',') ∈ (format_csv cexScanState 5).writes ∧
    ∃ w ∈ (format_csv cexScanState 5).writes, 5 ≤ w.1 := by
  refine ⟨rfl, by decide, by decide⟩

/-! ## attempt_send (main_voltage.c lines 394-407) -/

/-- Result of `attempt_send`. -/
structure SendAttemptResult where
  st : ScanState
  accessed : List Nat
deriving DecidableEq

/-- `void attempt_send()` (main_voltage.c lines 394-407): formats the
buffer into a local 1024-byte `csv_buffer` (the return value of
`format_csv` is ignored), sends it with `bt_nus_send`, and resets
`sample_index` to 0 exactly when the send returns 0; on failure the
state is left untouched.  `send_err` is the `bt_nus_send` return
code. -/
def attempt_send (st : ScanState) (send_err : Int) : SendAttemptResult :=
  let csv := format_csv st 1024
  if send_err = 0 then ⟨{ st with sample_index := 0 }, csv.accessed⟩
  else ⟨st, csv.accessed⟩

/-- C5: `attempt_send` never alters the stored records, and resets
`sample_index` to 0 exactly when the transport send returns success
(`bt_nus_send` result 0); on failure `sample_index` is unchanged, so
the same records are available for retry on the next cycle. -/
theorem attempt_send_reset_iff (st : ScanState) (send_err : Int) :
    (attempt_send st send_err).st.samples = st.samples ∧
    (attempt_send st send_err).st.sample_index
      = (if send_err = 0 then 0 else st.sample_index) := by
  unfold attempt_send
  split <;> simp_all

/-! ## bt_send_csv (service.c lines 97-119)

`bt_send_csv` returns `-1` immediately when notifications are not
enabled, else sends the NUL-free payload in chunks of at most 20 bytes:
`send_size = min(20, len - offset)`, one `bt_gatt_notify` per chunk
(outcome given by the oracle `ok`), aborting with `-2` on the first
failed notify.  The model returns the error code and the list of chunks
actually passed to `bt_gatt_notify`, in order. -/

def CHUNK_SIZE : Nat := 20

/-- The chunking of a payload: successive slices of at most
`CHUNK_SIZE` bytes. -/
def chunksOf : List Char → List (List Char)
  | [] => []
  | c :: cs => ((c :: cs).take CHUNK_SIZE) :: chunksOf ((c :: cs).drop CHUNK_SIZE)
termination_by l => l.length
decreasing_by simp [List.length_drop, CHUNK_SIZE]; omega

/-- The send loop of `bt_send_csv` (service.c lines 106-116): `k` is the
index of the next chunk, `ok k` the outcome of its `bt_gatt_notify`. -/
def sendChunks (ok : Nat → Bool) : List Char → Nat → Int × List (List Char)
  | [], _ => (0, [])
  | c :: cs, k =>
    let chunk := (c :: cs).take CHUNK_SIZE
    if ok k then
      let r := sendChunks ok ((c :: cs).drop CHUNK_SIZE) (k + 1)
      (r.1, chunk :: r.2)
    else (-2, [chunk])
termination_by l _ => l.length
decreasing_by simp [List.length_drop, CHUNK_SIZE]; omega

/-- `int bt_send_csv(const char *csv_data)` (service.c lines 97-119). -/
def bt_send_csv (notify_enabled : Bool) (csv_data : List Char) (ok : Nat → Bool) :
    Int × List (List Char) :=
  if notify_enabled = false then (-1, [])
  else sendChunks ok csv_data 0

theorem chunksOf_flatten_aux :
    ∀ (n : Nat) (d : List Char), d.length ≤ n → (chunksOf d).flatten = d := by
  intro n
  induction n with
  | zero =>
    intro d hd
    have hnil : d = [] := by
      cases d
      · rfl
      · simp at hd
    subst hnil
    simp [chunksOf]
  | succ n ih =>
    intro d hd
    cases d with
    | nil => simp [chunksOf]
    | cons c cs =>
      rw [chunksOf]
      simp only [List.flatten_cons]
      rw [ih ((c :: cs).drop CHUNK_SIZE)
        (by simp [List.length_drop, CHUNK_SIZE]; simp at hd; omega)]
      exact List.take_append_drop _ _

theorem chunksOf_flatten (d : List Char) : (chunksOf d).flatten = d :=
  chunksOf_flatten_aux d.length d Nat.le.refl

theorem chunksOf_length_aux :
    ∀ (n : Nat) (d : List Char), d.length ≤ n →
      (chunksOf d).length = (d.length + (CHUNK_SIZE - 1)) / CHUNK_SIZE := by
  intro n
  induction n with
  | zero =>
    intro d hd
    have hnil : d = [] := by
      cases d
      · rfl
      · simp at hd
    subst hnil
    simp [chunksOf, CHUNK_SIZE]
  | succ n ih =>
    intro d hd
    cases d with
    | nil => simp [chunksOf, CHUNK_SIZE]
    | cons c cs =>
      rw [chunksOf]
      simp only [List.length_cons]
      rw [ih ((c :: cs).drop CHUNK_SIZE)
        (by simp [List.length_drop, CHUNK_SIZE]; simp at hd; omega)]
      simp only [List.length_drop, List.length_cons, CHUNK_SIZE]
      omega

theorem chunksOf_length (d : List Char) :
    (chunksOf d).length = (d.length + (CHUNK_SIZE - 1)) / CHUNK_SIZE :=
  chunksOf_length_aux d.length d Nat.le.refl

theorem chunksOf_chunk_le_aux :
    ∀ (n : Nat) (d : List Char), d.length ≤ n →
      ∀ ch ∈ chunksOf d, ch.length ≤ CHUNK_SIZE := by
  intro n
  induction n with
  | zero =>
    intro d hd
    have hnil : d = [] := by
      cases d
      · rfl
      · simp at hd
    subst hnil
    simp [chunksOf]
  | succ n ih =>
    intro d hd
    cases d with
    | nil => simp [chunksOf]
    | cons c cs =>
      rw [chunksOf]
      intro ch hch
      rcases List.mem_cons.mp hch with h | h
      · subst h
        simp [List.length_take]
      · exact ih ((c :: cs).drop CHUNK_SIZE)
          (by simp [List.length_drop, CHUNK_SIZE]; simp at hd; omega) ch h

theorem sendChunks_all_ok_aux (ok : Nat → Bool) (hok : ∀ j, ok j = true) :
    ∀ (n : Nat) (d : List Char), d.length ≤ n → ∀ (k : Nat),
      sendChunks ok d k = (0, chunksOf d) := by
  intro n
  induction n with
  | zero =>
    intro d hd k
    have hnil : d = [] := by
      cases d
      · rfl
      · simp at hd
    subst hnil
    simp [sendChunks, chunksOf]
  | succ n ih =>
    intro d hd k
    cases d with
    | nil => simp [sendChunks, chunksOf]
    | cons c cs =>
      rw [sendChunks, chunksOf]
      rw [if_pos (hok k)]
      rw [ih ((c :: cs).drop CHUNK_SIZE)
        (by simp [List.length_drop, CHUNK_SIZE]; simp at hd; omega) (k + 1)]

theorem sendChunks_first_fail (ok : Nat → Bool) :
    ∀ (i : Nat) (d : List Char) (k : Nat),
      (∀ j < i, ok (k + j) = true) → ok (k + i) = false →
      i < (chunksOf d).length →
      sendChunks ok d k = (-2, (chunksOf d).take (i + 1)) := by
  intro i
  induction i with
  | zero =>
    intro d k hj hi hlen
    cases d with
    | nil => simp [chunksOf] at hlen
    | cons c cs =>
      rw [sendChunks, chunksOf]
      rw [if_neg (by simpa using hi)]
      rfl
  | succ i ih =>
    intro d k hj hi hlen
    cases d with
    | nil => simp [chunksOf] at hlen
    | cons c cs =>
      rw [chunksOf] at hlen
      simp only [List.length_cons] at hlen
      have hrec := ih ((c :: cs).drop CHUNK_SIZE) (k + 1)
        (fun j hlt => by
          have := hj (j + 1) (by omega)
          rwa [show k + 1 + j = k + (j + 1) by omega])
        (by rwa [show k + 1 + i = k + (i + 1) by omega])
        (by omega)
      rw [sendChunks, chunksOf]
      rw [if_pos (by simpa using hj 0 (by omega))]
      rw [hrec]
      rfl

/-- C7: for a nonempty NUL-free payload, `bt_send_csv` (a) returns the
not-ready code `-1` immediately, with no chunk attempted, when
notifications are not enabled; (b) with notifications enabled and every
notify succeeding, sends exactly `ceil(L / 20)` chunks in order, each of
at most `CHUNK_SIZE = 20` bytes, whose in-order concatenation is the
payload, and returns success; (c) if the notify of chunk `i` is the
first to fail, exactly chunks `0 .. i` are attempted — no chunk after
`i` — and the partial-failure code `-2` is returned. -/
theorem bt_send_csv_spec (payload : List Char) (ok : Nat → Bool)
    (hL : payload ≠ []) :
    bt_send_csv false payload ok = (-1, []) ∧
    chunksOf payload ≠ [] ∧
    ((∀ j, ok j = true) →
      bt_send_csv true payload ok = (0, chunksOf payload) ∧
      (chunksOf payload).length = (payload.length + (CHUNK_SIZE - 1)) / CHUNK_SIZE ∧
      (∀ ch ∈ chunksOf payload, ch.length ≤ CHUNK_SIZE) ∧
      (chunksOf payload).flatten = payload) ∧
    (∀ i, (∀ j < i, ok j = true) → ok i = false → i < (chunksOf payload).length →
      bt_send_csv true payload ok = (-2, (chunksOf payload).take (i + 1))) := by
  refine ⟨rfl, ?_, ?_, ?_⟩
  · cases payload with
    | nil => exact absurd rfl hL
    | cons c cs =>
      rw [chunksOf]
      simp
  · intro hok
    refine ⟨?_, chunksOf_length payload, chunksOf_chunk_le_aux payload.length payload
      Nat.le.refl, chunksOf_flatten payload⟩
    unfold bt_send_csv
    rw [if_neg (by simp)]
    exact sendChunks_all_ok_aux ok hok payload.length payload Nat.le.refl 0
  · intro i hj hi hlen
    unfold bt_send_csv
    rw [if_neg (by simp)]
    exact sendChunks_first_fail ok i payload 0 (fun j hlt => by simpa using hj j hlt)
      (by simpa using hi) hlen

/-- Witness for `bt_send_csv_spec` on a 45-byte payload (3 chunks). -/
theorem bt_send_csv_spec_witness :
    bt_send_csv false (List.replicate 45 'a') (fun _ => true) = (-1, []) ∧
    chunksOf (List.replicate 45 'a') ≠ [] ∧
    ((∀ j, (fun (_ : Nat) => true) j = true) →
      bt_send_csv true (List.replicate 45 'a') (fun _ => true)
        = (0, chunksOf (List.replicate 45 'a')) ∧
      (chunksOf (List.replicate 45 'a')).length
        = ((List.replicate 45 'a').length + (CHUNK_SIZE - 1)) / CHUNK_SIZE ∧
      (∀ ch ∈ chunksOf (List.replicate 45 'a'), ch.length ≤ CHUNK_SIZE) ∧
      (chunksOf (List.replicate 45 'a')).flatten = List.replicate 45 'a') ∧
    (∀ i, (∀ j < i, (fun (_ : Nat) => true) j = true) →
      (fun (_ : Nat) => true) i = false →
      i < (chunksOf (List.replicate 45 'a')).length →
      bt_send_csv true (List.replicate 45 'a') (fun _ => true)
        = (-2, (chunksOf (List.replicate 45 'a')).take (i + 1))) :=
  bt_send_csv_spec (List.replicate 45 'a') (fun _ => true) (by decide)

/-! ## C10: bounds of all sample-buffer operations -/

theorem writeRows_accessed (bufsz : Nat) :
    ∀ (recs : List (Nat × AdcSample)) (off : Nat),
      ∀ i ∈ (writeRows bufsz off recs).2.2, i ∈ recs.map Prod.fst := by
  intro recs
  induction recs with
  | nil =>
    intro off i hi
    simp [writeRows] at hi
  | cons jr rest ih =>
    intro off i hi
    obtain ⟨j, r⟩ := jr
    simp only [writeRows] at hi
    split at hi
    · simp only [List.mem_singleton] at hi
      simp [hi]
    · split at hi
      · simp only [List.mem_cons] at hi
        rcases hi with hi | hi
        · simp [hi]
        · simp only [List.map_cons, List.mem_cons]
          exact Or.inr (ih _ i hi)
      · simp only [List.mem_singleton] at hi
        simp [hi]

theorem format_csv_accessed (st : ScanState) (bufsz : Nat) :
    ∀ i ∈ (format_csv st bufsz).accessed, i < st.sample_index := by
  intro i hi
  simp only [format_csv] at hi
  split at hi
  · simp at hi
  · split at hi
    · simp at hi
    · have hsub : ∀ x ∈ ((List.range st.sample_index).map
          (fun j => (j, st.samples.getD j defaultSample))).map Prod.fst,
          x < st.sample_index := by
        intro x hx
        simp only [List.map_map] at hx
        simp only [List.mem_map, Function.comp_apply] at hx
        obtain ⟨y, hy, rfl⟩ := hx
        exact List.mem_range.mp hy
      split at hi <;>
        exact hsub i (writeRows_accessed bufsz _ _ i hi)

theorem loadAux_bounds (nvs : Nat → Option AdcSample) :
    ∀ (fuel : Nat) (samples : List AdcSample) (i : Nat),
      (loadAux nvs samples i fuel).2.1 ≤ i + fuel ∧
      ∀ j ∈ (loadAux nvs samples i fuel).2.2, j < i + fuel := by
  intro fuel
  induction fuel with
  | zero =>
    intro samples i
    simp [loadAux]
  | succ fuel ih =>
    intro samples i
    simp only [loadAux]
    split
    · refine ⟨?_, ?_⟩
      · show i ≤ i + (fuel + 1)
        omega
      · intro j hj
        simp at hj
    · next r hr =>
      have hrec := ih (samples.set i r) (i + 1)
      refine ⟨?_, ?_⟩
      · show (loadAux nvs (samples.set i r) (i + 1) fuel).2.1 ≤ i + (fuel + 1)
        have := hrec.1
        omega
      · intro j hj
        have hj2 : j ∈ i :: (loadAux nvs (samples.set i r) (i + 1) fuel).2.2 := hj
        rcases List.mem_cons.mp hj2 with hcase | hcase
        · omega
        · have := hrec.2 j hcase
          omega

/-- C10 (amended, at the `samples[i]` index granularity): given the
invariant `sample_index ≤ MAX_SAMPLES`, each of `store_sample`,
`store_sample_nvs`, `attempt_send` and `load_samples_from_nvs`
preserves it, and every `samples` index the operation reads or writes
is below `MAX_SAMPLES = 128`. -/
theorem buffer_ops_preserve_bounds (st : ScanState) (ts : Int)
    (reads : Nat → Option Nat) (nvs : Nat → Option AdcSample) (wok : Bool)
    (send_err : Int) (h : st.sample_index ≤ MAX_SAMPLES) :
    ((store_sample st ts reads).st.sample_index ≤ MAX_SAMPLES ∧
      ∀ i ∈ (store_sample st ts reads).accessed, i < MAX_SAMPLES) ∧
    ((store_sample_nvs st ts reads nvs wok).st.sample_index ≤ MAX_SAMPLES ∧
      ∀ i ∈ (store_sample_nvs st ts reads nvs wok).accessed, i < MAX_SAMPLES) ∧
    ((attempt_send st send_err).st.sample_index ≤ MAX_SAMPLES ∧
      ∀ i ∈ (attempt_send st send_err).accessed, i < MAX_SAMPLES) ∧
    ((load_samples_from_nvs st nvs).st.sample_index ≤ MAX_SAMPLES ∧
      ∀ i ∈ (load_samples_from_nvs st nvs).accessed, i < MAX_SAMPLES) := by
  refine ⟨?_, ?_, ?_, ?_⟩
  · by_cases hc : st.sample_index < MAX_SAMPLES ∧ ((reads 0).isSome = true)
    · simp only [store_sample]
      rw [if_pos hc]
      refine ⟨?_, ?_⟩
      · show st.sample_index + 1 ≤ MAX_SAMPLES
        omega
      · intro i hi
        have h2 : i ∈ [st.sample_index] := hi
        simp only [List.mem_singleton] at h2
        omega
    · simp only [store_sample]
      rw [if_neg hc]
      refine ⟨h, ?_⟩
      intro i hi
      have h2 : i ∈ ([] : List Nat) := hi
      simp at h2
  · by_cases hc : st.sample_index < MAX_SAMPLES ∧ ((reads 0).isSome = true)
    · simp only [store_sample_nvs]
      rw [if_pos hc]
      cases wok
      · refine ⟨show st.sample_index ≤ MAX_SAMPLES from h, ?_⟩
        intro i hi
        have h2 : i ∈ [st.sample_index] := hi
        simp only [List.mem_singleton] at h2
        omega
      · refine ⟨?_, ?_⟩
        · show st.sample_index + 1 ≤ MAX_SAMPLES
          omega
        · intro i hi
          have h2 : i ∈ [st.sample_index] := hi
          simp only [List.mem_singleton] at h2
          omega
    · simp only [store_sample_nvs]
      rw [if_neg hc]
      refine ⟨h, ?_⟩
      intro i hi
      have h2 : i ∈ ([] : List Nat) := hi
      simp at h2
  · have hacc := format_csv_accessed st 1024
    by_cases hs : send_err = 0
    · simp only [attempt_send]
      rw [if_pos hs]
      refine ⟨show (0 : Nat) ≤ MAX_SAMPLES by omega, ?_⟩
      intro i hi
      have h2 : i ∈ (format_csv st 1024).accessed := hi
      have := hacc i h2
      omega
    · simp only [attempt_send]
      rw [if_neg hs]
      refine ⟨h, ?_⟩
      intro i hi
      have h2 : i ∈ (format_csv st 1024).accessed := hi
      have := hacc i h2
      omega
  · have hl := loadAux_bounds nvs MAX_SAMPLES st.samples 0
    refine ⟨?_, ?_⟩
    · show (loadAux nvs st.samples 0 MAX_SAMPLES).2.1 ≤ MAX_SAMPLES
      have := hl.1
      omega
    · intro i hi
      have h2 : i ∈ (loadAux nvs st.samples 0 MAX_SAMPLES).2.2 := hi
      have := hl.2 i h2
      omega

/-- Witness for `buffer_ops_preserve_bounds` on the concrete empty
buffer state. -/
theorem buffer_ops_preserve_bounds_witness :
    ((store_sample cexScanState 0 cexReads).st.sample_index ≤ MAX_SAMPLES ∧
      ∀ i ∈ (store_sample cexScanState 0 cexReads).accessed, i < MAX_SAMPLES) ∧
    ((store_sample_nvs cexScanState 0 cexReads (fun _ => none) false).st.sample_index
        ≤ MAX_SAMPLES ∧
      ∀ i ∈ (store_sample_nvs cexScanState 0 cexReads (fun _ => none) false).accessed,
        i < MAX_SAMPLES) ∧
    ((attempt_send cexScanState 1).st.sample_index ≤ MAX_SAMPLES ∧
      ∀ i ∈ (attempt_send cexScanState 1).accessed, i < MAX_SAMPLES) ∧
    ((load_samples_from_nvs cexScanState (fun _ => none)).st.sample_index
        ≤ MAX_SAMPLES ∧
      ∀ i ∈ (load_samples_from_nvs cexScanState (fun _ => none)).accessed,
        i < MAX_SAMPLES) :=
  buffer_ops_preserve_bounds cexScanState 0 cexReads (fun _ => none) false 1 (by decide)

/-- Modelled from main_voltage.c line 376: `nvs_write(&fs, sample_index,
&samples[sample_index], sizeof(samples[sample_index]) + 1)` hands the
log a buffer of `sizeof(adc_sample_t) + 1` bytes starting at byte
offset `sample_index * recSize` of the `samples` array; this is the
(exclusive) end of the byte range that call reads. -/
def nvsWriteReadEnd (idx recSize : Nat) : Nat := idx * recSize + (recSize + 1)

/-- The byte size of the `samples[MAX_SAMPLES]` array for a record size
of `recSize` bytes. -/
def samplesByteSize (recSize : Nat) : Nat := MAX_SAMPLES * recSize

/-- Counterexample to C10's conclusion that no access is out of bounds:
because of the `+ 1` in the `nvs_write` length argument, the write-through
of slot `MAX_SAMPLES - 1 = 127` reads one byte past the end of the
`samples` array — for the target's `sizeof(adc_sample_t) = 24` (an
`int64_t` plus eight `uint16_t`), the read ends at byte 3073 of a
3072-byte array.  (The same holds for every record size `recSize ≥ 1`:
`127 * recSize + recSize + 1 > 128 * recSize`.)  The index-level bounds
of the claim are proved in `buffer_ops_preserve_bounds`. -/
theorem store_sample_nvs_overread_cex :
    samplesByteSize 24 = 3072 ∧
    nvsWriteReadEnd 127 24 = 3073 ∧
    samplesByteSize 24 < nvsWriteReadEnd 127 24 ∧
    127 < MAX_SAMPLES := by
  refine ⟨rfl, rfl, by decide, by decide⟩
